import Mathlib

/-!
Verification of the `go-function-options` repository (`src/main.go`): a
functional-options configuration builder (`NewOptReqParams` with the `With*`
mutators) and a request executor (`CustomHTTPRequest`) that resolves an
authorization token, builds an HTTP request with headers and query string,
and issues it.  External collaborators (`MyLoginAPI`, `http.NewRequestWithContext`,
`http.Client.Do`) are modelled as parameters of the executor.
-/

namespace GoFuncOpts

/-- An `io.Reader` value: `none` is Go's `nil` reader, `some s` an opaque
reader identified by its content. -/
abbrev IOReader := Option String

/-- A Go `map[string]string` value: `none` is the `nil` map; `some l` is a
non-nil map whose entries are listed in some iteration order (Go map
iteration order is arbitrary). Keys of a Go map are distinct. -/
abbrev QueryMap := Option (List (String × String))

/-- `OptReqParams` from `src/main.go` (lines 16-22): the optional request
parameters record. -/
structure OptReqParams where
  httpMethod : String
  body : IOReader
  useInvalidToken : Bool
  queryParam : QueryMap
  acceptHeader : String
deriving DecidableEq, Repr

/-- Go's `http.MethodGet` constant. -/
def MethodGet : String := "GET"

/-- Go's `http.MethodPost` constant. -/
def MethodPost : String := "POST"

/-- The zero value of `OptReqParams` (`&OptReqParams{}` at line 29): Go zero
values are `""` for strings, `nil` for interfaces and maps, `false` for bools. -/
def zeroOptReqParams : OptReqParams :=
  { httpMethod := "", body := none, useInvalidToken := false,
    queryParam := none, acceptHeader := "" }

/-- The mutators of the source: each `With*` function (lines 45-83) captures
its arguments and sets exactly the fields shown in its body. -/
inductive Mutator where
  | withMethod (httpMethod : String)
  | withBody (body : IOReader)
  | withUseInvalidToken (useInvalidToken : Bool)
  | withQueryParam (queryParam : QueryMap)
  | withAcceptHeader (acceptHeader : String)
  | withTwoValues (acceptHeader : String) (httpMethod : String)
deriving DecidableEq, Repr

/-- Application of a mutator to the draft, field for field as written in the
closure bodies of `WithMethod` .. `WithTwoValues` in `src/main.go`. -/
def Mutator.apply : Mutator → OptReqParams → OptReqParams
  | .withMethod m, s => { s with httpMethod := m }
  | .withBody b, s => { s with body := b }
  | .withUseInvalidToken u, s => { s with useInvalidToken := u }
  | .withQueryParam q, s => { s with queryParam := q }
  | .withAcceptHeader a, s => { s with acceptHeader := a }
  | .withTwoValues a m, s => { s with httpMethod := m, acceptHeader := a }

/-- `NewOptReqParams` (`src/main.go` lines 28-39): start from the zero value,
install the three defaults, then apply each option in order. -/
def NewOptReqParams (options : List Mutator) : OptReqParams :=
  let params := zeroOptReqParams
  let params := { params with httpMethod := MethodGet }
  let params := { params with useInvalidToken := false }
  let params := { params with acceptHeader := "application/json" }
  options.foldl (fun p o => o.apply p) params

/-! ### Query encoding (`net/url`)

`req.URL.Query()` parses the URL's raw query into a `url.Values` multimap;
`q.Add(k, v)` appends `v` to the slice of `k`; `q.Encode()` emits
`k=v` pairs with keys in sorted order, each key and value passed through
`url.QueryEscape`.  We model the multimap by its flat entry list in insertion
order: the value slice of key `k` is the ordered sublist of entries whose
first component is `k`. -/

/-- Uppercase hexadecimal digit for `n < 16`, as `net/url` uses
`"0123456789ABCDEF"`. -/
def hexDigit (n : Nat) : Char :=
  if n < 10 then Char.ofNat (48 + n) else Char.ofNat (55 + n)

/-- UTF-8 encoding of a character as a list of byte values, matching Go's
per-byte escaping of a string. -/
def utf8Bytes (c : Char) : List Nat :=
  let n := c.toNat
  if n < 0x80 then [n]
  else if n < 0x800 then
    [0xC0 ||| (n >>> 6), 0x80 ||| (n &&& 0x3F)]
  else if n < 0x10000 then
    [0xE0 ||| (n >>> 12), 0x80 ||| ((n >>> 6) &&& 0x3F), 0x80 ||| (n &&& 0x3F)]
  else
    [0xF0 ||| (n >>> 18), 0x80 ||| ((n >>> 12) &&& 0x3F),
     0x80 ||| ((n >>> 6) &&& 0x3F), 0x80 ||| (n &&& 0x3F)]

/-- Characters `url.QueryEscape` leaves unescaped: ASCII alphanumerics and
`-`, `_`, `.`, `~`. -/
def isUnreservedChar (c : Char) : Bool :=
  c.isAlphanum || c == '-' || c == '_' || c == '.' || c == '~'

/-- `url.QueryEscape` applied to one character: unreserved characters pass
through, a space becomes `+`, every other byte becomes `%XX`. -/
def escapeChar (c : Char) : String :=
  if isUnreservedChar c then String.singleton c
  else if c == ' ' then "+"
  else String.join ((utf8Bytes c).map fun b =>
    String.mk ['%', hexDigit (b / 16), hexDigit (b % 16)])

/-- `url.QueryEscape`. -/
def queryEscape (s : String) : String :=
  String.join (s.data.map escapeChar)

/-- Lexicographic comparison of character lists by code point; on UTF-8
data this coincides with Go's byte-wise string comparison, since UTF-8
preserves code-point order. -/
def charListLe : List Char → List Char → Bool
  | [], _ => true
  | _ :: _, [] => false
  | a :: as, b :: bs =>
    if a.toNat < b.toNat then true
    else if b.toNat < a.toNat then false
    else charListLe as bs

/-- Go's string comparison `a <= b`, as used by `sort.Strings`. -/
def strLe (a b : String) : Bool := charListLe a.data b.data

/-- `strLe` as a relation, for sorting. -/
def strLeRel : String → String → Prop := fun a b => strLe a b = true

instance : DecidableRel strLeRel :=
  fun a b => inferInstanceAs (Decidable (strLe a b = true))

/-- The distinct keys of the multimap in sorted order, as `url.Values.Encode`
sorts them with `sort.Strings`. -/
def sortedKeys (pairs : List (String × String)) : List String :=
  List.insertionSort strLeRel ((pairs.map Prod.fst).dedup)

/-- The value slice of key `k` in insertion order. -/
def valuesOf (pairs : List (String × String)) (k : String) : List String :=
  (pairs.filter fun p => p.1 == k).map Prod.snd

/-- One escaped `key=value` piece of the encoded query. -/
def encodePair (k v : String) : String :=
  queryEscape k ++ "=" ++ queryEscape v

/-- `url.Values.Encode`: for each key in sorted order, each of its values in
order, joined with `&`. -/
def encodeValues (pairs : List (String × String)) : String :=
  String.intercalate "&"
    ((sortedKeys pairs).flatMap fun k => (valuesOf pairs k).map (encodePair k))

/-! ### The executor -/

/-- The token holder returned by the external login collaborator
(`resp.Token` at line 97 of `src/main.go`). -/
structure LoginResp where
  token : String
deriving DecidableEq, Repr

/-- An `*http.Request` as far as this program manipulates it: the method,
URL and body handed to `http.NewRequestWithContext`, the header list in
`Add` order, the parsed query pairs of the URL (`req.URL.Query()` before any
`Add`), and the URL's `RawQuery` string. -/
structure Request where
  method : String
  url : String
  headers : List (String × String)
  body : IOReader
  queryPairs : List (String × String)
  rawQuery : String
deriving DecidableEq, Repr

/-- An `*http.Response`, opaque to this program (returned unmodified). -/
structure HttpResponse where
  status : Nat
deriving DecidableEq, Repr

/-- Outcome of one executor call: a Go runtime panic, a returned non-nil
error, or a response. -/
inductive ExecResult where
  | panics (msg : String)
  | fails (msg : String)
  | succeeds (resp : HttpResponse)
deriving DecidableEq, Repr

/-- Observable trace of one executor call: whether the login collaborator
was invoked, the request handed to `client.Do` (if that point was reached),
and the returned outcome. -/
structure ExecTrace where
  loginCalled : Bool
  issued : Option Request
  result : ExecResult
deriving DecidableEq, Repr

/-- Lines 107-110 of `src/main.go`: the three `req.Header.Add` calls, in
order. -/
def addHeaders (p : OptReqParams) (authString : String) (req : Request) : Request :=
  { req with headers := req.headers ++
      [("Accept", p.acceptHeader), ("Authorization", authString),
       ("Content-Type", "application/json")] }

/-- Lines 112-119 of `src/main.go`: if `p.queryParam != nil`, take
`req.URL.Query()`, `Add` every entry of the map, and store the `Encode`d
result in `req.URL.RawQuery`. -/
def addQuery (p : OptReqParams) (req : Request) : Request :=
  match p.queryParam with
  | none => req
  | some qp => { req with rawQuery := encodeValues (req.queryPairs ++ qp) }

/-- Lines 100-127 of `src/main.go`: create the request, add headers and
query parameters, and fire it with `client.Do`; `lc` records whether
`MyLoginAPI` was invoked while resolving `authString`. -/
def fireRequest (mkReq : String → String → IOReader → Except String Request)
    (send : Request → Except String HttpResponse)
    (url : String) (p : OptReqParams) (lc : Bool) (authString : String) : ExecTrace :=
  match mkReq p.httpMethod url p.body with
  | .error e => { loginCalled := lc, issued := none, result := .fails e }
  | .ok req =>
    let req := addHeaders p authString req
    let req := addQuery p req
    match send req with
    | .error e => { loginCalled := lc, issued := some req, result := .fails e }
    | .ok res => { loginCalled := lc, issued := some req, result := .succeeds res }

/-- `CustomHTTPRequest` (`src/main.go` lines 86-128), transliterated.
External collaborators are parameters:
`login` is the result of `MyLoginAPI(ctx, email, passwd)` (a function of the
repository not present in `src/`; per the spec it returns a token holder or
an error); `mkReq` is `http.NewRequestWithContext(ctx, method, url, body)`;
`send` is `client.Do`.  A `nil` configuration pointer (`p? = none`) hits the
field access `p.useInvalidToken` at line 88 and panics, since the function
performs no nil check. -/
def CustomHTTPRequest (login : Except String LoginResp)
    (mkReq : String → String → IOReader → Except String Request)
    (send : Request → Except String HttpResponse)
    (url : String) (p? : Option OptReqParams) : ExecTrace :=
  match p? with
  | none =>
      { loginCalled := false, issued := none,
        result := .panics "runtime error: invalid memory address or nil pointer dereference" }
  | some p =>
    -- lines 87-98: resolve authString
    if p.useInvalidToken then
      fireRequest mkReq send url p false ("Bearer " ++ "Invalid Token")
    else
      match login with
      | .error err =>
          { loginCalled := true, issued := none,
            result := .fails ("error in login with user provided credentials " ++ err) }
      | .ok resp => fireRequest mkReq send url p true ("Bearer " ++ resp.token)

/-! ### State-threaded variant, for the immutability claim

The Go executor receives `p` as a pointer; its body only ever reads fields
of `p` (lines 88, 102, 108, 113-118) and contains no assignment through the
pointer.  To state that as a theorem we thread the pointee as explicit state
through the same steps and return its final value. -/

/-- `fireRequest` with the configuration cell threaded as state. -/
def fireRequestSt (mkReq : String → String → IOReader → Except String Request)
    (send : Request → Except String HttpResponse)
    (url : String) (lc : Bool) (authString : String) (p : OptReqParams) :
    ExecTrace × OptReqParams :=
  match mkReq p.httpMethod url p.body with
  | .error e => ({ loginCalled := lc, issued := none, result := .fails e }, p)
  | .ok req =>
    let req := addHeaders p authString req
    let req := addQuery p req
    match send req with
    | .error e => ({ loginCalled := lc, issued := some req, result := .fails e }, p)
    | .ok res => ({ loginCalled := lc, issued := some req, result := .succeeds res }, p)

/-- `CustomHTTPRequest` on a non-nil configuration with the configuration
cell threaded as state: returns the trace together with the configuration's
contents when the call returns. -/
def CustomHTTPRequestSt (login : Except String LoginResp)
    (mkReq : String → String → IOReader → Except String Request)
    (send : Request → Except String HttpResponse)
    (url : String) (p : OptReqParams) : ExecTrace × OptReqParams :=
  if p.useInvalidToken then
    fireRequestSt mkReq send url false ("Bearer " ++ "Invalid Token") p
  else
    match login with
    | .error err =>
        ({ loginCalled := true, issued := none,
           result := .fails ("error in login with user provided credentials " ++ err) }, p)
    | .ok resp => fireRequestSt mkReq send url true ("Bearer " ++ resp.token) p

/-! ### Per-field footprint of each mutator (from the mutator bodies)

`Mutator.sets*` returns the value a mutator writes to the given field, or
`none` when its body does not mention that field; the spec's
last-writer-wins reading is then a left fold of these footprints. -/

/-- The value a mutator writes to `httpMethod`, if any. -/
def Mutator.setsMethod : Mutator → Option String
  | .withMethod m => some m
  | .withTwoValues _ m => some m
  | _ => none

/-- The value a mutator writes to `body`, if any. -/
def Mutator.setsBody : Mutator → Option IOReader
  | .withBody b => some b
  | _ => none

/-- The value a mutator writes to `useInvalidToken`, if any. -/
def Mutator.setsUseInvalidToken : Mutator → Option Bool
  | .withUseInvalidToken u => some u
  | _ => none

/-- The value a mutator writes to `queryParam`, if any. -/
def Mutator.setsQueryParam : Mutator → Option QueryMap
  | .withQueryParam q => some q
  | _ => none

/-- The value a mutator writes to `acceptHeader`, if any. -/
def Mutator.setsAcceptHeader : Mutator → Option String
  | .withAcceptHeader a => some a
  | .withTwoValues a _ => some a
  | _ => none

/-- The value of one field after a sequence of mutators: the value written
by the last mutator in the sequence that touches the field, or the start
value if none does. -/
def lastSet (f : Mutator → Option α) : α → List Mutator → α
  | d, [] => d
  | d, o :: rest => lastSet f (match f o with | some v => v | none => d) rest

/-! ### Concrete collaborator stubs, used by witnesses -/

/-- A login collaborator that succeeds with a fixed token. -/
def loginStub : Except String LoginResp := .ok { token := "tok123" }

/-- A request constructor that always succeeds, mirroring
`http.NewRequestWithContext` on a well-formed URL without a query string. -/
def mkReqStub : String → String → IOReader → Except String Request :=
  fun m u b =>
    .ok { method := m, url := u, headers := [], body := b, queryPairs := [], rawQuery := "" }

/-- A transport that always answers with status 200. -/
def sendStub : Request → Except String HttpResponse := fun _ => .ok { status := 200 }

/-! ### Builder theorems -/

/-- Each field of the draft after a fold of mutator applications is the
last-written value for that field, starting from the draft's current
values. -/
theorem foldl_apply_fields (opts : List Mutator) (p : OptReqParams) :
    (opts.foldl (fun s o => o.apply s) p).httpMethod
        = lastSet Mutator.setsMethod p.httpMethod opts ∧
      (opts.foldl (fun s o => o.apply s) p).body
        = lastSet Mutator.setsBody p.body opts ∧
      (opts.foldl (fun s o => o.apply s) p).useInvalidToken
        = lastSet Mutator.setsUseInvalidToken p.useInvalidToken opts ∧
      (opts.foldl (fun s o => o.apply s) p).queryParam
        = lastSet Mutator.setsQueryParam p.queryParam opts ∧
      (opts.foldl (fun s o => o.apply s) p).acceptHeader
        = lastSet Mutator.setsAcceptHeader p.acceptHeader opts := by
  induction opts generalizing p with
  | nil => exact ⟨rfl, rfl, rfl, rfl, rfl⟩
  | cons o rest ih =>
    simp only [List.foldl_cons]
    have h := ih (o.apply p)
    cases o <;>
      simpa [Mutator.apply, lastSet, Mutator.setsMethod, Mutator.setsBody,
        Mutator.setsUseInvalidToken, Mutator.setsQueryParam,
        Mutator.setsAcceptHeader] using h

/-- C8: calling the builder with zero mutators yields exactly the
pure-default configuration: method GET, useInvalidToken false, acceptHeader
"application/json", body and queryParameters absent (nil). -/
theorem zero_mutators_yields_defaults :
    NewOptReqParams [] =
      { httpMethod := "GET", body := none, useInvalidToken := false,
        queryParam := none, acceptHeader := "application/json" } := rfl

/-- C4: the builder initializes the draft with the defaults and applies the
mutators in order; every field of the result is the value set by the last
mutator touching it, or the default when none does (last-writer-wins per
field). -/
theorem newOptReqParams_last_writer_wins (opts : List Mutator) :
    (NewOptReqParams opts).httpMethod = lastSet Mutator.setsMethod MethodGet opts ∧
      (NewOptReqParams opts).body = lastSet Mutator.setsBody none opts ∧
      (NewOptReqParams opts).useInvalidToken
        = lastSet Mutator.setsUseInvalidToken false opts ∧
      (NewOptReqParams opts).queryParam = lastSet Mutator.setsQueryParam none opts ∧
      (NewOptReqParams opts).acceptHeader
        = lastSet Mutator.setsAcceptHeader "application/json" opts := by
  simpa [NewOptReqParams, zeroOptReqParams, MethodGet] using
    foldl_apply_fields opts
      { httpMethod := MethodGet, body := none, useInvalidToken := false,
        queryParam := none, acceptHeader := "application/json" }

/-! ### Executor theorems -/

/-- C1: the spec says an absent (nil) configuration is substituted by the
pure defaults and behaves like a zero-mutator configuration; the code has no
nil check and dereferences `p.useInvalidToken` at line 88, so the nil call
panics while the zero-mutator call succeeds. -/
theorem nil_config_panics_not_defaults :
    (CustomHTTPRequest loginStub mkReqStub sendStub "some_url" none).result =
      .panics "runtime error: invalid memory address or nil pointer dereference" ∧
    (CustomHTTPRequest loginStub mkReqStub sendStub "some_url"
        (some (NewOptReqParams []))).result = .succeeds { status := 200 } :=
  ⟨rfl, rfl⟩

/-- C2: with useInvalidToken false and a failing login collaborator, the
executor returns the wrapped error "error in login with user provided
credentials" followed by the cause, invokes login, and never constructs or
issues the outbound request (issued = none). -/
theorem login_error_wrapped_no_request (login : Except String LoginResp)
    (mkReq : String → String → IOReader → Except String Request)
    (send : Request → Except String HttpResponse) (url : String)
    (p : OptReqParams) (e : String)
    (hTok : p.useInvalidToken = false) (hLogin : login = .error e) :
    CustomHTTPRequest login mkReq send url (some p) =
      { loginCalled := true, issued := none,
        result := .fails ("error in login with user provided credentials " ++ e) } := by
  simp [CustomHTTPRequest, hTok, hLogin]

/-- Witness for C2 at a concrete failing login. -/
theorem login_error_wrapped_no_request_witness :
    CustomHTTPRequest (.error "boom") mkReqStub sendStub "some_url"
        (some (NewOptReqParams [])) =
      { loginCalled := true, issued := none,
        result := .fails ("error in login with user provided credentials " ++ "boom") } :=
  login_error_wrapped_no_request _ _ _ _ _ _ rfl rfl

/-! ### Helper lemmas about `fireRequest` -/

theorem addHeaders_headers (p : OptReqParams) (a : String) (req : Request) :
    (addHeaders p a req).headers = req.headers ++
      [("Accept", p.acceptHeader), ("Authorization", a),
       ("Content-Type", "application/json")] := rfl

theorem addQuery_headers (p : OptReqParams) (req : Request) :
    (addQuery p req).headers = req.headers := by
  cases hq : p.queryParam <;> simp [addQuery, hq]

theorem built_headers (p : OptReqParams) (a : String) (req : Request) :
    (addQuery p (addHeaders p a req)).headers = req.headers ++
      [("Accept", p.acceptHeader), ("Authorization", a),
       ("Content-Type", "application/json")] := by
  rw [addQuery_headers, addHeaders_headers]

theorem built_rawQuery_some (p : OptReqParams) (a : String) (req : Request)
    (qp : List (String × String)) (hq : p.queryParam = some qp) :
    (addQuery p (addHeaders p a req)).rawQuery
      = encodeValues (req.queryPairs ++ qp) := by
  simp [addQuery, addHeaders, hq]

theorem built_rawQuery_none (p : OptReqParams) (a : String) (req : Request)
    (hq : p.queryParam = none) :
    (addQuery p (addHeaders p a req)).rawQuery = req.rawQuery := by
  simp [addQuery, addHeaders, hq]

theorem fireRequest_loginCalled (mkReq : String → String → IOReader → Except String Request)
    (send : Request → Except String HttpResponse) (url : String)
    (p : OptReqParams) (lc : Bool) (auth : String) :
    (fireRequest mkReq send url p lc auth).loginCalled = lc := by
  unfold fireRequest
  cases hm : mkReq p.httpMethod url p.body with
  | error e => rfl
  | ok req0 => cases hs : send (addQuery p (addHeaders p auth req0)) <;> simp [hs]

theorem fireRequest_mkErr (mkReq : String → String → IOReader → Except String Request)
    (send : Request → Except String HttpResponse) (url : String)
    (p : OptReqParams) (lc : Bool) (auth : String) (e : String)
    (hmk : mkReq p.httpMethod url p.body = Except.error e) :
    fireRequest mkReq send url p lc auth =
      { loginCalled := lc, issued := none, result := .fails e } := by
  simp [fireRequest, hmk]

theorem fireRequest_issued (mkReq : String → String → IOReader → Except String Request)
    (send : Request → Except String HttpResponse) (url : String)
    (p : OptReqParams) (lc : Bool) (auth : String) (req0 : Request) (r : Request)
    (hmk : mkReq p.httpMethod url p.body = Except.ok req0)
    (hiss : (fireRequest mkReq send url p lc auth).issued = some r) :
    r = addQuery p (addHeaders p auth req0) := by
  simp only [fireRequest, hmk] at hiss
  cases hs : send (addQuery p (addHeaders p auth req0)) <;>
    simp [hs] at hiss <;> exact hiss.symm

theorem fireRequest_sendErr (mkReq : String → String → IOReader → Except String Request)
    (send : Request → Except String HttpResponse) (url : String)
    (p : OptReqParams) (lc : Bool) (auth : String) (r : Request) (e : String)
    (hiss : (fireRequest mkReq send url p lc auth).issued = some r)
    (hs : send r = Except.error e) :
    (fireRequest mkReq send url p lc auth).result = .fails e := by
  cases hm : mkReq p.httpMethod url p.body with
  | error e2 => rw [fireRequest_mkErr mkReq send url p lc auth e2 hm] at hiss; simp at hiss
  | ok req0 =>
    have hr := fireRequest_issued mkReq send url p lc auth req0 r hm hiss
    subst hr
    simp [fireRequest, hm, hs]

/-- When token resolution succeeds (invalid-token mode, or a login success),
the executor call is one `fireRequest` with the corresponding
login-called flag and authorization string. -/
theorem exec_eq_fire (login : Except String LoginResp)
    (mkReq : String → String → IOReader → Except String Request)
    (send : Request → Except String HttpResponse) (url : String) (p : OptReqParams)
    (hAuth : p.useInvalidToken = true ∨ ∃ lr, login = Except.ok lr) :
    ∃ lc auth, CustomHTTPRequest login mkReq send url (some p)
        = fireRequest mkReq send url p lc auth := by
  cases hu : p.useInvalidToken with
  | false =>
    rcases hAuth with h | ⟨lr, hl⟩
    · rw [hu] at h; exact absurd h (by simp)
    · exact ⟨true, "Bearer " ++ lr.token, by simp [CustomHTTPRequest, hu, hl]⟩
  | true => exact ⟨false, "Bearer " ++ "Invalid Token", by simp [CustomHTTPRequest, hu]⟩

/-! ### Claim theorems C3, C6, C7 -/

/-- C3: with useInvalidToken true the executor never invokes the login
collaborator, and the Authorization header of the constructed request is
exactly "Bearer Invalid Token". -/
theorem invalid_token_skips_login (login : Except String LoginResp)
    (mkReq : String → String → IOReader → Except String Request)
    (send : Request → Except String HttpResponse) (url : String)
    (p : OptReqParams) (hInv : p.useInvalidToken = true) :
    (CustomHTTPRequest login mkReq send url (some p)).loginCalled = false ∧
    (∀ req0 r, mkReq p.httpMethod url p.body = Except.ok req0 → req0.headers = [] →
      (CustomHTTPRequest login mkReq send url (some p)).issued = some r →
      List.lookup "Authorization" r.headers = some "Bearer Invalid Token") := by
  have hexec : CustomHTTPRequest login mkReq send url (some p)
      = fireRequest mkReq send url p false ("Bearer " ++ "Invalid Token") := by
    simp [CustomHTTPRequest, hInv]
  constructor
  · rw [hexec, fireRequest_loginCalled]
  · intro req0 r hmk h0 hiss
    rw [hexec] at hiss
    have hr := fireRequest_issued mkReq send url p false _ req0 r hmk hiss
    subst hr
    rw [built_headers, h0]
    simp [List.lookup]

/-- Witness for C3: invalid-token configuration against concrete stubs. -/
theorem invalid_token_skips_login_witness :
    (CustomHTTPRequest loginStub mkReqStub sendStub "some_url"
        (some (NewOptReqParams [Mutator.withUseInvalidToken true]))).loginCalled = false ∧
    List.lookup "Authorization"
      (Request.mk "GET" "some_url"
        [("Accept", "application/json"), ("Authorization", "Bearer Invalid Token"),
         ("Content-Type", "application/json")] none [] "").headers
      = some "Bearer Invalid Token" :=
  ⟨(invalid_token_skips_login loginStub mkReqStub sendStub "some_url"
      (NewOptReqParams [Mutator.withUseInvalidToken true]) rfl).1,
   (invalid_token_skips_login loginStub mkReqStub sendStub "some_url"
      (NewOptReqParams [Mutator.withUseInvalidToken true]) rfl).2
      (Request.mk "GET" "some_url" [] none [] "")
      (Request.mk "GET" "some_url"
        [("Accept", "application/json"), ("Authorization", "Bearer Invalid Token"),
         ("Content-Type", "application/json")] none [] "")
      rfl rfl (by decide)⟩

/-- C6: on every successful token resolution the constructed request carries
exactly the three headers Accept (configured), Authorization ("Bearer " +
token, or the invalid-token literal), and Content-Type "application/json"
(fixed). -/
theorem exactly_three_headers (login : Except String LoginResp)
    (mkReq : String → String → IOReader → Except String Request)
    (send : Request → Except String HttpResponse) (url : String)
    (p : OptReqParams) (req0 r : Request)
    (hmk : mkReq p.httpMethod url p.body = Except.ok req0)
    (h0 : req0.headers = [])
    (hiss : (CustomHTTPRequest login mkReq send url (some p)).issued = some r) :
    (p.useInvalidToken = true →
      r.headers = [("Accept", p.acceptHeader),
        ("Authorization", "Bearer " ++ "Invalid Token"),
        ("Content-Type", "application/json")]) ∧
    (∀ lr, p.useInvalidToken = false → login = Except.ok lr →
      r.headers = [("Accept", p.acceptHeader),
        ("Authorization", "Bearer " ++ lr.token),
        ("Content-Type", "application/json")]) := by
  constructor
  · intro hInv
    have hexec : CustomHTTPRequest login mkReq send url (some p)
        = fireRequest mkReq send url p false ("Bearer " ++ "Invalid Token") := by
      simp [CustomHTTPRequest, hInv]
    rw [hexec] at hiss
    have hr := fireRequest_issued mkReq send url p false _ req0 r hmk hiss
    subst hr
    rw [built_headers, h0, List.nil_append]
  · intro lr hTok hl
    have hexec : CustomHTTPRequest login mkReq send url (some p)
        = fireRequest mkReq send url p true ("Bearer " ++ lr.token) := by
      simp [CustomHTTPRequest, hTok, hl]
    rw [hexec] at hiss
    have hr := fireRequest_issued mkReq send url p true _ req0 r hmk hiss
    subst hr
    rw [built_headers, h0, List.nil_append]

/-- Witness for C6: default configuration, successful login with token
"tok123". -/
theorem exactly_three_headers_witness :
    (Request.mk "GET" "some_url"
      [("Accept", "application/json"), ("Authorization", "Bearer tok123"),
       ("Content-Type", "application/json")] none [] "").headers
      = [("Accept", (NewOptReqParams []).acceptHeader),
         ("Authorization", "Bearer " ++ "tok123"),
         ("Content-Type", "application/json")] :=
  (exactly_three_headers loginStub mkReqStub sendStub "some_url"
      (NewOptReqParams []) (Request.mk "GET" "some_url" [] none [] "")
      (Request.mk "GET" "some_url"
        [("Accept", "application/json"), ("Authorization", "Bearer tok123"),
         ("Content-Type", "application/json")] none [] "")
      rfl rfl (by decide)).2
    { token := "tok123" } rfl rfl

/-- C7: when token resolution succeeds, a request-construction error or a
transport error is returned to the caller unchanged (no wrapping), and on a
construction error no request is issued. -/
theorem raw_errors_unwrapped (login : Except String LoginResp)
    (mkReq : String → String → IOReader → Except String Request)
    (send : Request → Except String HttpResponse) (url : String)
    (p : OptReqParams)
    (hAuth : p.useInvalidToken = true ∨ ∃ lr, login = Except.ok lr) :
    (∀ e, mkReq p.httpMethod url p.body = Except.error e →
      (CustomHTTPRequest login mkReq send url (some p)).result = .fails e ∧
      (CustomHTTPRequest login mkReq send url (some p)).issued = none) ∧
    (∀ r e, (CustomHTTPRequest login mkReq send url (some p)).issued = some r →
      send r = Except.error e →
      (CustomHTTPRequest login mkReq send url (some p)).result = .fails e) := by
  obtain ⟨lc, auth, hexec⟩ := exec_eq_fire login mkReq send url p hAuth
  constructor
  · intro e hmk
    rw [hexec, fireRequest_mkErr mkReq send url p lc auth e hmk]
    exact ⟨rfl, rfl⟩
  · intro r e hiss hs
    rw [hexec] at hiss ⊢
    exact fireRequest_sendErr mkReq send url p lc auth r e hiss hs

/-- A request constructor that always fails, as on a malformed URL. -/
def mkReqFailStub : String → String → IOReader → Except String Request :=
  fun _ _ _ => .error "parse error"

/-- A transport that always fails, as on a refused connection. -/
def sendFailStub : Request → Except String HttpResponse :=
  fun _ => .error "connection refused"

/-- Witness for C7: a failing request constructor and a failing transport,
each surfacing its raw error. -/
theorem raw_errors_unwrapped_witness :
    ((CustomHTTPRequest loginStub mkReqFailStub sendStub "some_url"
        (some (NewOptReqParams []))).result = .fails "parse error" ∧
     (CustomHTTPRequest loginStub mkReqFailStub sendStub "some_url"
        (some (NewOptReqParams []))).issued = none) ∧
    (CustomHTTPRequest loginStub mkReqStub sendFailStub "some_url"
        (some (NewOptReqParams []))).result = .fails "connection refused" :=
  ⟨(raw_errors_unwrapped loginStub mkReqFailStub sendStub "some_url"
      (NewOptReqParams []) (Or.inr ⟨{ token := "tok123" }, rfl⟩)).1 "parse error" rfl,
   (raw_errors_unwrapped loginStub mkReqStub sendFailStub "some_url"
      (NewOptReqParams []) (Or.inr ⟨{ token := "tok123" }, rfl⟩)).2
      (Request.mk "GET" "some_url"
        [("Accept", "application/json"), ("Authorization", "Bearer tok123"),
         ("Content-Type", "application/json")] none [] "")
      "connection refused" (by decide) rfl⟩

/-! ### Claim theorem C9: the configuration is never written -/

/-- C9: threading the configuration cell through the executor's steps, its
contents after the call equal its contents before, on the success branch and
on every error branch; and the trace is the one of the value-level executor.
The configuration is immutable across the call. -/
theorem config_immutable (login : Except String LoginResp)
    (mkReq : String → String → IOReader → Except String Request)
    (send : Request → Except String HttpResponse) (url : String) (p : OptReqParams) :
    (CustomHTTPRequestSt login mkReq send url p).2 = p ∧
    (CustomHTTPRequestSt login mkReq send url p).1 =
      CustomHTTPRequest login mkReq send url (some p) := by
  have hfire : ∀ lc auth, fireRequestSt mkReq send url lc auth p
      = (fireRequest mkReq send url p lc auth, p) := by
    intro lc auth
    unfold fireRequestSt fireRequest
    cases hm : mkReq p.httpMethod url p.body with
    | error e => rfl
    | ok req0 => cases hs : send (addQuery p (addHeaders p auth req0)) <;> simp [hs]
  cases hu : p.useInvalidToken with
  | true => simp [CustomHTTPRequestSt, CustomHTTPRequest, hu, hfire]
  | false =>
    cases hl : login with
    | error e => simp [CustomHTTPRequestSt, CustomHTTPRequest, hu, hl]
    | ok lr => simp [CustomHTTPRequestSt, CustomHTTPRequest, hu, hl, hfire]

/-! ### Permutation lemmas for the query multimap -/

theorem flatMap_congr_mem {α β : Type} (l : List α) (f g : α → List β)
    (h : ∀ a ∈ l, f a = g a) : l.flatMap f = l.flatMap g := by
  induction l with
  | nil => rfl
  | cons a t ih =>
    rw [List.flatMap_cons, List.flatMap_cons, h a (by simp),
      ih (fun b hb => h b (by simp [hb]))]

theorem filter_not_filter_perm {α : Type} (pr : α → Bool) (l : List α) :
    (l.filter pr ++ l.filter fun a => !(pr a)).Perm l := by
  induction l with
  | nil => simp
  | cons a t ih =>
    by_cases h : pr a
    · rw [List.filter_cons_of_pos h, List.filter_cons_of_neg (by simp [h]),
        List.cons_append]
      exact ih.cons a
    · rw [List.filter_cons_of_neg h, List.filter_cons_of_pos (by simp [h])]
      exact List.perm_middle.trans (ih.cons a)

/-- In a list with pairwise-distinct keys, at most one entry matches a given
key. -/
theorem filter_key_length_le_one {l : List (String × String)}
    (h : (l.map Prod.fst).Nodup) (k : String) :
    (l.filter fun q => q.1 == k).length ≤ 1 := by
  induction l with
  | nil => simp
  | cons a t ih =>
    rw [List.map_cons, List.nodup_cons] at h
    by_cases hk : a.1 == k
    · have hk2 : a.1 = k := by simpa using hk
      have hnil : (t.filter fun q => q.1 == k) = [] := by
        rw [List.filter_eq_nil_iff]
        intro b hb hbk
        have hbk2 : b.1 = k := by simpa using hbk
        have hmem : b.1 ∈ t.map Prod.fst := List.mem_map_of_mem Prod.fst hb
        rw [hbk2, ← hk2] at hmem
        exact h.1 hmem
      rw [List.filter_cons_of_pos (p := fun q => q.1 == k) (l := t) hk, hnil]
      simp
    · rw [List.filter_cons_of_neg (p := fun q => q.1 == k) (l := t) hk]
      exact ih h.2

/-- Two permuted lists with pairwise-distinct keys have identical (not just
permuted) filtrations at every key. -/
theorem perm_filter_key_eq {l₁ l₂ : List (String × String)} (hp : l₁.Perm l₂)
    (h : (l₁.map Prod.fst).Nodup) (k : String) :
    (l₁.filter fun q => q.1 == k) = l₂.filter fun q => q.1 == k := by
  have hf := hp.filter fun q => q.1 == k
  have len1 := filter_key_length_le_one h k
  rcases h1 : l₁.filter fun q => q.1 == k with _ | ⟨a, rest⟩
  · rw [h1] at hf
    rw [h1]
    exact (hf.symm.eq_nil).symm
  · rw [h1] at hf len1
    cases rest with
    | nil =>
      rw [h1]
      exact (List.perm_singleton.mp hf.symm).symm
    | cons b t => simp [List.length_cons] at len1

/-- Partitioning a list of pairs by a duplicate-free list of keys covering
all its keys permutes the list. -/
theorem flatMap_filter_key_perm (ks : List String) :
    ∀ l : List (String × String), ks.Nodup → (∀ q ∈ l, q.1 ∈ ks) →
      (ks.flatMap fun k => l.filter fun q => q.1 == k).Perm l := by
  induction ks with
  | nil =>
    intro l _ hcov
    have hl : l = [] := by
      rcases l with _ | ⟨a, t⟩
      · rfl
      · exact absurd (hcov a (by simp)) (by simp)
    subst hl
    simp
  | cons k ks ih =>
    intro l hnd hcov
    rw [List.nodup_cons] at hnd
    rw [List.flatMap_cons]
    have htail : (ks.flatMap fun k2 => l.filter fun q => q.1 == k2)
        = ks.flatMap fun k2 =>
            (l.filter fun q => !(q.1 == k)).filter fun q => q.1 == k2 := by
      apply flatMap_congr_mem
      intro k2 hk2
      rw [List.filter_filter]
      apply List.filter_congr
      intro a _
      cases hb : (a.1 == k2) with
      | false => simp [hb]
      | true =>
        have ha2 : a.1 = k2 := by simpa using hb
        have hne : k2 ≠ k := fun he => hnd.1 (he ▸ hk2)
        have hak : (a.1 == k) = false := by
          rw [ha2]
          exact beq_eq_false_iff_ne.mpr hne
        simp [hb, hak]
    rw [htail]
    have hcov2 : ∀ q ∈ (l.filter fun q => !(q.1 == k)), q.1 ∈ ks := by
      intro q hq
      obtain ⟨hql, hqk⟩ := List.mem_filter.mp hq
      have hne : q.1 ≠ k := by simpa using hqk
      rcases List.mem_cons.mp (hcov q hql) with he | hin
      · exact absurd he hne
      · exact hin
    exact (List.Perm.append_left _
      (ih (l.filter fun q => !(q.1 == k)) hnd.2 hcov2)).trans
      (filter_not_filter_perm _ l)

theorem charListLe_total : ∀ as bs, charListLe as bs = true ∨ charListLe bs as = true := by
  intro as
  induction as with
  | nil => intro bs; left; rfl
  | cons a as ih =>
    intro bs
    cases bs with
    | nil => right; rfl
    | cons b bs =>
      by_cases hab : a.toNat < b.toNat
      · left; simp [charListLe, hab]
      · by_cases hba : b.toNat < a.toNat
        · right; simp [charListLe, hba]
        · rcases ih bs with h | h
          · left; simp [charListLe, hab, hba, h]
          · right; simp [charListLe, hab, hba, h]

theorem charListLe_trans : ∀ as bs cs, charListLe as bs = true →
    charListLe bs cs = true → charListLe as cs = true := by
  intro as
  induction as with
  | nil => intro bs cs h1 h2; rfl
  | cons a as ih =>
    intro bs cs h1 h2
    cases bs with
    | nil => simp [charListLe] at h1
    | cons b bs =>
      cases cs with
      | nil => simp [charListLe] at h2
      | cons c cs =>
        simp only [charListLe] at h1 h2 ⊢
        by_cases hab : a.toNat < b.toNat
        · by_cases hbc : b.toNat < c.toNat
          · simp [Nat.lt_trans hab hbc]
          · by_cases hcb : c.toNat < b.toNat
            · rw [if_neg hbc, if_pos hcb] at h2
              exact absurd h2 Bool.false_ne_true
            · have heq : b.toNat = c.toNat := by omega
              have hac : a.toNat < c.toNat := heq ▸ hab
              simp [hac]
        · by_cases hba : b.toNat < a.toNat
          · rw [if_neg hab, if_pos hba] at h1
            exact absurd h1 Bool.false_ne_true
          · have heq : a.toNat = b.toNat := by omega
            rw [if_neg hab, if_neg hba] at h1
            by_cases hbc : b.toNat < c.toNat
            · have hac : a.toNat < c.toNat := heq ▸ hbc
              simp [hac]
            · by_cases hcb : c.toNat < b.toNat
              · rw [if_neg hbc, if_pos hcb] at h2
                exact absurd h2 Bool.false_ne_true
              · have heq2 : b.toNat = c.toNat := by omega
                rw [if_neg hbc, if_neg hcb] at h2
                have h3 : ¬ a.toNat < c.toNat := by omega
                have h4 : ¬ c.toNat < a.toNat := by omega
                rw [if_neg h3, if_neg h4]
                exact ih bs cs h1 h2

theorem charListLe_antisymm : ∀ as bs, charListLe as bs = true →
    charListLe bs as = true → as = bs := by
  intro as
  induction as with
  | nil =>
    intro bs h1 h2
    cases bs with
    | nil => rfl
    | cons b bs => simp [charListLe] at h2
  | cons a as ih =>
    intro bs h1 h2
    cases bs with
    | nil => simp [charListLe] at h1
    | cons b bs =>
      simp only [charListLe] at h1 h2
      by_cases hab : a.toNat < b.toNat
      · have hba : ¬ b.toNat < a.toNat := by omega
        rw [if_neg hba, if_pos hab] at h2
        exact absurd h2 Bool.false_ne_true
      · by_cases hba : b.toNat < a.toNat
        · rw [if_neg hab, if_pos hba] at h1
          exact absurd h1 Bool.false_ne_true
        · rw [if_neg hab, if_neg hba] at h1
          rw [if_neg hba, if_neg hab] at h2
          have heq : a.toNat = b.toNat := by omega
          have hchar : a = b := Char.ext (UInt32.toNat.inj heq)
          rw [hchar, ih bs h1 h2]

theorem string_eq_of_data_eq {a b : String} (h : a.data = b.data) : a = b := by
  cases a
  cases b
  exact congrArg String.mk h

instance : IsTotal String strLeRel := ⟨fun a b => charListLe_total a.data b.data⟩

instance : IsTrans String strLeRel :=
  ⟨fun a b c h1 h2 => charListLe_trans a.data b.data c.data h1 h2⟩

instance : IsAntisymm String strLeRel :=
  ⟨fun a b h1 h2 => string_eq_of_data_eq (charListLe_antisymm a.data b.data h1 h2)⟩

theorem mem_sortedKeys (pairs : List (String × String)) :
    ∀ q ∈ pairs, q.1 ∈ sortedKeys pairs := by
  intro q hq
  unfold sortedKeys
  rw [List.mem_insertionSort, List.mem_dedup]
  exact List.mem_map_of_mem Prod.fst hq

theorem sortedKeys_nodup (pairs : List (String × String)) : (sortedKeys pairs).Nodup :=
  (List.perm_insertionSort _ _).nodup_iff.mpr (List.nodup_dedup _)

theorem sortedKeys_sorted (pairs : List (String × String)) :
    List.Sorted strLeRel (sortedKeys pairs) :=
  List.sorted_insertionSort _ _

theorem sortedKeys_eq_of_perm {l₁ l₂ : List (String × String)} (hp : l₁.Perm l₂) :
    sortedKeys l₁ = sortedKeys l₂ :=
  List.eq_of_perm_of_sorted
    ((List.perm_insertionSort _ _).trans
      (((hp.map Prod.fst).dedup).trans (List.perm_insertionSort _ _).symm))
    (sortedKeys_sorted l₁) (sortedKeys_sorted l₂)

/-- The encoded query is invariant under reordering entries with distinct
keys: the iteration order of the Go map does not show in `Encode`'s
output. -/
theorem encodeValues_congr_perm {l₁ l₂ : List (String × String)} (hp : l₁.Perm l₂)
    (hnd : (l₁.map Prod.fst).Nodup) : encodeValues l₁ = encodeValues l₂ := by
  unfold encodeValues
  rw [sortedKeys_eq_of_perm hp]
  congr 1
  apply flatMap_congr_mem
  intro k _
  unfold valuesOf
  rw [perm_filter_key_eq hp hnd k]

/-- The encoded query is the `&`-join of the escaped `key=value` pieces of
some permutation of the entry list: each entry appears exactly once. -/
theorem encodeValues_perm_flatten (pairs : List (String × String)) :
    ∃ l : List (String × String), l.Perm pairs ∧
      encodeValues pairs
        = String.intercalate "&" (l.map fun kv => encodePair kv.1 kv.2) := by
  refine ⟨(sortedKeys pairs).flatMap fun k => pairs.filter fun q => q.1 == k,
    flatMap_filter_key_perm (sortedKeys pairs) pairs (sortedKeys_nodup pairs)
      (mem_sortedKeys pairs), ?_⟩
  unfold encodeValues
  congr 1
  rw [List.map_flatMap]
  apply flatMap_congr_mem
  intro k _
  unfold valuesOf
  rw [List.map_map]
  apply List.map_congr_left
  intro q hq
  have hqk : q.1 = k := by simpa using (List.mem_filter.mp hq).2
  simp [hqk, Function.comp]

/-- When the constructor returned a request, so the executor reached
`client.Do`, the request it issued is the constructed one with the three
headers and the encoded query attached, for some authorization string. -/
theorem exec_issued_shape (login : Except String LoginResp)
    (mkReq : String → String → IOReader → Except String Request)
    (send : Request → Except String HttpResponse) (url : String)
    (p : OptReqParams) (req0 r : Request)
    (hmk : mkReq p.httpMethod url p.body = Except.ok req0)
    (hiss : (CustomHTTPRequest login mkReq send url (some p)).issued = some r) :
    ∃ auth, r = addQuery p (addHeaders p auth req0) := by
  cases hu : p.useInvalidToken with
  | true =>
    have hx : CustomHTTPRequest login mkReq send url (some p)
        = fireRequest mkReq send url p false ("Bearer " ++ "Invalid Token") := by
      simp [CustomHTTPRequest, hu]
    rw [hx] at hiss
    exact ⟨_, fireRequest_issued mkReq send url p false _ req0 r hmk hiss⟩
  | false =>
    cases hl : login with
    | error e =>
      have hx : CustomHTTPRequest login mkReq send url (some p)
          = { loginCalled := true, issued := none,
              result := .fails ("error in login with user provided credentials " ++ e) } := by
        simp [CustomHTTPRequest, hu, hl]
      rw [hx] at hiss
      exact absurd hiss (by simp)
    | ok lr =>
      have hx : CustomHTTPRequest login mkReq send url (some p)
          = fireRequest mkReq send url p true ("Bearer " ++ lr.token) := by
        simp [CustomHTTPRequest, hu, hl]
      rw [hx] at hiss
      exact ⟨_, fireRequest_issued mkReq send url p true _ req0 r hmk hiss⟩

/-! ### Claim theorems C5 and C10 -/

/-- C5: with a non-nil queryParameters map the executor's issued request has
as query string the `&`-join of the percent-encoded key=value pairs of the
map, each exactly once, in some order; with an absent map the query string
of the request is untouched. -/
theorem query_parameters_appended :
    (∀ (login : Except String LoginResp)
      (mkReq : String → String → IOReader → Except String Request)
      (send : Request → Except String HttpResponse) (url : String)
      (p : OptReqParams) (qp : List (String × String)) (req0 r : Request),
      p.queryParam = some qp →
      mkReq p.httpMethod url p.body = Except.ok req0 → req0.queryPairs = [] →
      (CustomHTTPRequest login mkReq send url (some p)).issued = some r →
      ∃ l : List (String × String), l.Perm qp ∧
        r.rawQuery = String.intercalate "&" (l.map fun kv => encodePair kv.1 kv.2)) ∧
    (∀ (login : Except String LoginResp)
      (mkReq : String → String → IOReader → Except String Request)
      (send : Request → Except String HttpResponse) (url : String)
      (p : OptReqParams) (req0 r : Request),
      p.queryParam = none →
      mkReq p.httpMethod url p.body = Except.ok req0 →
      (CustomHTTPRequest login mkReq send url (some p)).issued = some r →
      r.rawQuery = req0.rawQuery) := by
  constructor
  · intro login mkReq send url p qp req0 r hq hmk hqp0 hiss
    obtain ⟨auth, hr⟩ := exec_issued_shape login mkReq send url p req0 r hmk hiss
    subst hr
    rw [built_rawQuery_some p auth req0 qp hq, hqp0, List.nil_append]
    exact encodeValues_perm_flatten qp
  · intro login mkReq send url p req0 r hq hmk hiss
    obtain ⟨auth, hr⟩ := exec_issued_shape login mkReq send url p req0 r hmk hiss
    subst hr
    exact built_rawQuery_none p auth req0 hq

/-- Witness for C5 at the example map of `main` ({"name":"xyz","age":"10"}):
the issued query string is "age=10&name=xyz". -/
theorem query_parameters_appended_witness :
    ∃ l : List (String × String), l.Perm [("name", "xyz"), ("age", "10")] ∧
      (Request.mk "POST" "some_url"
        [("Accept", "application/json"), ("Authorization", "Bearer tok123"),
         ("Content-Type", "application/json")] none [] "age=10&name=xyz").rawQuery
        = String.intercalate "&" (l.map fun kv => encodePair kv.1 kv.2) :=
  query_parameters_appended.1 loginStub mkReqStub sendStub "some_url"
    (NewOptReqParams [Mutator.withMethod MethodPost, Mutator.withBody none,
      Mutator.withQueryParam (some [("name", "xyz"), ("age", "10")])])
    [("name", "xyz"), ("age", "10")]
    (Request.mk "POST" "some_url" [] none [] "")
    (Request.mk "POST" "some_url"
      [("Accept", "application/json"), ("Authorization", "Bearer tok123"),
       ("Content-Type", "application/json")] none [] "age=10&name=xyz")
    rfl rfl rfl rfl

/-- C10: for two executor calls equal except for the iteration order of the
(duplicate-free) queryParameters map, the issued requests carry identical
raw query strings, and the encoding lists keys in sorted order. -/
theorem query_encoding_deterministic (login : Except String LoginResp)
    (mkReq : String → String → IOReader → Except String Request)
    (send : Request → Except String HttpResponse) (url : String)
    (p : OptReqParams) (qp1 qp2 : List (String × String)) (req0 r1 r2 : Request)
    (hperm : qp1.Perm qp2) (hnd : (qp1.map Prod.fst).Nodup)
    (hmk : mkReq p.httpMethod url p.body = Except.ok req0)
    (hqp0 : req0.queryPairs = [])
    (h1 : (CustomHTTPRequest login mkReq send url
        (some { p with queryParam := some qp1 })).issued = some r1)
    (h2 : (CustomHTTPRequest login mkReq send url
        (some { p with queryParam := some qp2 })).issued = some r2) :
    r1.rawQuery = r2.rawQuery ∧ List.Sorted strLeRel (sortedKeys qp1) := by
  obtain ⟨a1, hr1⟩ := exec_issued_shape login mkReq send url
    { p with queryParam := some qp1 } req0 r1 hmk h1
  obtain ⟨a2, hr2⟩ := exec_issued_shape login mkReq send url
    { p with queryParam := some qp2 } req0 r2 hmk h2
  subst hr1
  subst hr2
  constructor
  · rw [built_rawQuery_some _ a1 req0 qp1 rfl, built_rawQuery_some _ a2 req0 qp2 rfl,
      hqp0, List.nil_append, List.nil_append]
    exact encodeValues_congr_perm hperm hnd
  · exact sortedKeys_sorted qp1

/-- Witness for C10: the two iteration orders of {"name":"xyz","age":"10"}
encode to the same query string. -/
theorem query_encoding_deterministic_witness :
    (Request.mk "GET" "some_url"
      [("Accept", "application/json"), ("Authorization", "Bearer tok123"),
       ("Content-Type", "application/json")] none [] "age=10&name=xyz").rawQuery
      = (Request.mk "GET" "some_url"
          [("Accept", "application/json"), ("Authorization", "Bearer tok123"),
           ("Content-Type", "application/json")] none [] "age=10&name=xyz").rawQuery ∧
    List.Sorted strLeRel (sortedKeys [("name", "xyz"), ("age", "10")]) :=
  query_encoding_deterministic loginStub mkReqStub sendStub "some_url"
    (NewOptReqParams []) [("name", "xyz"), ("age", "10")]
    [("age", "10"), ("name", "xyz")]
    (Request.mk "GET" "some_url" [] none [] "")
    (Request.mk "GET" "some_url"
      [("Accept", "application/json"), ("Authorization", "Bearer tok123"),
       ("Content-Type", "application/json")] none [] "age=10&name=xyz")
    (Request.mk "GET" "some_url"
      [("Accept", "application/json"), ("Authorization", "Bearer tok123"),
       ("Content-Type", "application/json")] none [] "age=10&name=xyz")
    (by decide) (by decide) rfl rfl rfl rfl

end GoFuncOpts
